import Mathlib

/-!
# Verification of the CSharpInterpreter core

A shallow embedding of the interpreter's evaluation stack, metadata-table
lookup, method/type reverse lookup, blob-length decoding, and the opcode
dispatch loop, together with proofs and refutations of the specified
properties.

Machine integers are modelled as `Nat` bit patterns (a value of byte size
`n` is a `Nat` below `256 ^ n`); the stack's byte buffer is a `List Nat`
of bytes with an `Int` write-pointer offset from the buffer base.
Operations whose C++ counterpart has undefined behaviour (out-of-bounds
reads or writes, dereferencing an empty `unique_ptr`) return `none`;
a thrown C++ exception is an explicit error value carrying the state the
object had at the throw point.
-/

/-- The `ValueType` tag enumeration of the evaluation stack
(`ili::ValueType`). -/
inductive ValueType where
  | invalid
  | int32
  | int64
  | nativeInt
  | nativeUInt
  | f
  | o
  | pointer
deriving DecidableEq, Repr

/-- `ili::getTypeSize`: byte size occupied by a stack slot of each tag. -/
def getTypeSize : ValueType → Nat
  | .invalid => 0
  | .int32 => 4
  | .int64 => 8
  | .nativeInt => 8
  | .nativeUInt => 8
  | .f => 8
  | .o => 8
  | .pointer => 8

/-- The payload types `T` accepted by `Stack::push<T>` / `Stack::pop<T>`
(`i32`, `i64`, `Float`, `NativeInt`, `NativeUnsignedInt`, `ManagedPointer`,
`UnmanagedPointer`). -/
inductive PayloadType where
  | i32
  | i64
  | float
  | nativeInt
  | nativeUInt
  | managedPtr
  | unmanagedPtr
deriving DecidableEq, Repr

/-- `Stack::getValueType<T>()`: the `ValueType` tag mapped to each payload
type. -/
def getValueType : PayloadType → ValueType
  | .i32 => .int32
  | .i64 => .int64
  | .float => .f
  | .nativeInt => .nativeInt
  | .nativeUInt => .nativeUInt
  | .managedPtr => .o
  | .unmanagedPtr => .pointer

/-- `sizeof(T)` for each payload type (4 bytes for `i32`, 8 for every
other supported payload). -/
def sizeofT : PayloadType → Nat
  | .i32 => 4
  | _ => 8

/-- Inverse of `getValueType`; `none` for the `Invalid` tag, which maps to
no payload type. -/
def payloadOfValueType : ValueType → Option PayloadType
  | .invalid => none
  | .int32 => some .i32
  | .int64 => some .i64
  | .f => some .float
  | .nativeInt => some .nativeInt
  | .nativeUInt => some .nativeUInt
  | .o => some .managedPtr
  | .pointer => some .unmanagedPtr

theorem sizeofT_eq_typeSize (t : PayloadType) :
    getTypeSize (getValueType t) = sizeofT t := by
  cases t <;> rfl

theorem payloadOfValueType_getValueType (t : PayloadType) :
    payloadOfValueType (getValueType t) = some t := by
  cases t <;> rfl

theorem getValueType_payloadOfValueType {vt : ValueType} {t : PayloadType}
    (h : payloadOfValueType vt = some t) : getValueType t = vt := by
  cases vt <;> simp [payloadOfValueType] at h <;> simp [← h, getValueType]

/-! ## Byte-level memory model

`memcpy` over little-endian object representations. -/

/-- Little-endian byte serialisation of a `size`-byte value. -/
def natToBytes : Nat → Nat → List Nat
  | _, 0 => []
  | v, size + 1 => v % 256 :: natToBytes (v / 256) size

/-- Little-endian byte deserialisation. -/
def bytesToNat : List Nat → Nat
  | [] => 0
  | b :: bs => b + 256 * bytesToNat bs

/-- Read `n` bytes at offset `off`. -/
def readBytes (buf : List Nat) (off n : Nat) : List Nat :=
  (buf.drop off).take n

/-- Overwrite the bytes at offset `off` with `bs` (a bounded `memcpy`). -/
def writeBytes (buf : List Nat) (off : Nat) (bs : List Nat) : List Nat :=
  buf.take off ++ bs ++ buf.drop (off + bs.length)

theorem natToBytes_length (v size : Nat) : (natToBytes v size).length = size := by
  induction size generalizing v with
  | zero => rfl
  | succ n ih => simp [natToBytes, ih]

theorem bytesToNat_natToBytes {v size : Nat} (h : v < 256 ^ size) :
    bytesToNat (natToBytes v size) = v := by
  induction size generalizing v with
  | zero => simp [natToBytes, bytesToNat]; omega
  | succ n ih =>
      have hlt : v / 256 < 256 ^ n := by
        rw [Nat.div_lt_iff_lt_mul (by norm_num)]
        calc v < 256 ^ (n + 1) := h
        _ = 256 ^ n * 256 := by ring
      simp [natToBytes, bytesToNat, ih hlt]
      omega

theorem writeBytes_length {buf bs : List Nat} {off : Nat}
    (h : off + bs.length ≤ buf.length) :
    (writeBytes buf off bs).length = buf.length := by
  simp [writeBytes]
  omega

theorem readBytes_writeBytes {buf bs : List Nat} {off : Nat}
    (h : off + bs.length ≤ buf.length) :
    readBytes (writeBytes buf off bs) off bs.length = bs := by
  have htake : (buf.take off).length = off := List.length_take_of_le (by omega)
  simp only [readBytes, writeBytes, List.append_assoc]
  rw [List.drop_left' htake, List.take_left' rfl]

/-! ## The evaluation stack (`ili::Stack`)

Two parallel sequences: a byte buffer with a write-pointer offset and a
tag stack.  `sp` is the signed distance of `m_stackPointer` from
`m_stack.data()`, so the underflow comparison `m_stackPointer <
m_stack.data()` is `sp < 0`. -/

structure Stack where
  buf : List Nat
  sp : Int
  types : List ValueType
deriving DecidableEq, Repr

/-- `Stack::getTypeOnStack(pos)`: the tag `pos` slots below the top;
reading outside the tag vector is undefined behaviour (`none`). -/
def Stack.getTypeOnStack (s : Stack) (pos : Nat) : Option ValueType :=
  if pos < s.types.length then s.types.get? (s.types.length - 1 - pos) else none

/-- `Stack::push<T>`: copy `getTypeSize(getValueType<T>())` bytes of the
value to the write pointer, append the tag, advance the pointer by
`sizeof(T)`.  The source performs no capacity check, so a write outside
the buffer is undefined behaviour (`none`). -/
def Stack.push (s : Stack) (t : PayloadType) (v : Nat) : Option Stack :=
  let valueSize := getTypeSize (getValueType t)
  if 0 ≤ s.sp ∧ s.sp + valueSize ≤ (s.buf.length : Int) then
    some { buf := writeBytes s.buf s.sp.toNat (natToBytes v valueSize)
           sp := s.sp + sizeofT t
           types := s.types ++ [getValueType t] }
  else none

/-- Errors thrown by `Stack::pop<T>`: `std::out_of_range("Not enough data
on stack to pop")`, `std::runtime_error("Tried to pop different type...")`
and `std::out_of_range("Stack underflow")`. -/
inductive StackErr where
  | notEnoughData
  | typeMismatch
  | underflow
deriving DecidableEq, Repr

/-- Result of `Stack::pop<T>`: either a value or a thrown exception, each
carrying the stack state left behind. -/
inductive PopRes where
  | ok (value : Nat) (s : Stack)
  | err (e : StackErr) (s : Stack)
deriving DecidableEq, Repr

/-- `Stack::pop<T>`, step for step: read the top tag (undefined on an
empty tag stack); throw `notEnoughData` when `getTypeSize(tag) >
sizeof(T)`; throw `typeMismatch` when the tag differs from `T`'s mapped
tag; pop the tag and retract the pointer by `sizeof(T)`; only then check
and throw `underflow` — the error state has the tag already popped and
the pointer already retracted; finally zero-fill and copy
`getTypeSize(tag)` bytes from the retracted pointer. -/
def Stack.pop (s : Stack) (t : PayloadType) : Option PopRes :=
  match s.getTypeOnStack 0 with
  | none => none
  | some tag =>
    let sizeToPop := getTypeSize tag
    if sizeToPop > sizeofT t then some (.err .notEnoughData s)
    else if tag ≠ getValueType t then some (.err .typeMismatch s)
    else
      let s' : Stack := { s with types := s.types.dropLast, sp := s.sp - sizeofT t }
      if s'.sp < 0 then some (.err .underflow s')
      else if s'.sp.toNat + sizeToPop ≤ s.buf.length then
        some (.ok (bytesToNat (readBytes s.buf s'.sp.toNat sizeToPop)) s')
      else none

/-- C1: for every supported payload type `T` and every value `v` (as a
bit pattern of `sizeof(T)` bytes), `push<T>(v)` followed by `pop<T>()`
returns a value bitwise-equal to `v`, and immediately after `push<T>(v)`
the top tag is the `ValueType` mapped to `T`. -/
theorem push_pop_roundtrip (t : PayloadType) (v : Nat) (s : Stack)
    (hv : v < 256 ^ sizeofT t) (hsp : 0 ≤ s.sp)
    (hcap : s.sp + sizeofT t ≤ (s.buf.length : Int)) :
    ∃ s', s.push t v = some s' ∧
      s'.getTypeOnStack 0 = some (getValueType t) ∧
      s'.pop t = some (.ok v { s' with sp := s.sp, types := s.types }) := by
  have hsz := sizeofT_eq_typeSize t
  have hlen : (natToBytes v (sizeofT t)).length = sizeofT t := natToBytes_length _ _
  have hle : s.sp.toNat + (natToBytes v (sizeofT t)).length ≤ s.buf.length := by
    rw [hlen]; omega
  have hpush : s.push t v =
      some { buf := writeBytes s.buf s.sp.toNat (natToBytes v (sizeofT t))
             sp := s.sp + sizeofT t
             types := s.types ++ [getValueType t] } := by
    unfold Stack.push
    rw [hsz, if_pos]
    exact ⟨hsp, hcap⟩
  refine ⟨_, hpush, ?_, ?_⟩
  · unfold Stack.getTypeOnStack
    simp
  · unfold Stack.pop
    have htop : Stack.getTypeOnStack
        { buf := writeBytes s.buf s.sp.toNat (natToBytes v (sizeofT t))
          sp := s.sp + sizeofT t
          types := s.types ++ [getValueType t] } 0 = some (getValueType t) := by
      unfold Stack.getTypeOnStack
      simp
    rw [htop]
    simp only [hsz, gt_iff_lt, lt_self_iff_false, if_false, ne_eq,
      not_true_eq_false, if_neg, ite_false]
    have hsp' : s.sp + (sizeofT t : Int) - sizeofT t = s.sp := by ring
    have hwlen : (writeBytes s.buf s.sp.toNat (natToBytes v (sizeofT t))).length = s.buf.length :=
      writeBytes_length hle
    rw [if_neg, if_pos]
    · congr 1
      have hbufread :
          readBytes (writeBytes s.buf s.sp.toNat (natToBytes v (sizeofT t)))
            ((s.sp + (sizeofT t : Int) - sizeofT t)).toNat (sizeofT t) =
            natToBytes v (sizeofT t) := by
        rw [hsp']
        have := @readBytes_writeBytes s.buf (natToBytes v (sizeofT t)) s.sp.toNat hle
        rw [hlen] at this
        exact this
      rw [PopRes.ok.injEq]
      constructor
      · rw [hbufread, bytesToNat_natToBytes hv]
      · rw [Stack.mk.injEq]
        refine ⟨rfl, by rw [hsp'], by simp⟩
    · rw [hwlen, hsp']
      omega
    · rw [hsp']
      omega

/-- Witness for `push_pop_roundtrip` at `T = i32`, `v = 7`, on an empty
8-byte stack. -/
theorem push_pop_roundtrip_witness :
    ∃ s', (Stack.mk [0, 0, 0, 0, 0, 0, 0, 0] 0 []).push .i32 7 = some s' ∧
      s'.getTypeOnStack 0 = some (getValueType .i32) ∧
      s'.pop .i32 = some (.ok 7 { s' with sp := (0 : Int), types := ([] : List ValueType) }) :=
  push_pop_roundtrip .i32 7 (Stack.mk [0, 0, 0, 0, 0, 0, 0, 0] 0 [])
    (by decide) (by decide) (by decide)

/-- C2 counterexample: a `pop<i64>` that underflows mutates the stack
before throwing — the error state has the tag popped and the pointer
retracted below the base — and a `pop<i32>` against an `Int64` top tag
throws the out-of-range "not enough data" error, not the type-mismatch
error, so failures are neither always type-mismatch-first nor
state-preserving. -/
theorem pop_failure_not_atomic_cex :
    (Stack.mk [0, 0, 0, 0, 0, 0, 0, 0] 4 [.int64]).pop .i64 =
      some (.err .underflow (Stack.mk [0, 0, 0, 0, 0, 0, 0, 0] (-4) [])) ∧
    ([] : List ValueType) ≠ [ValueType.int64] ∧
    (Stack.mk [0, 0, 0, 0, 0, 0, 0, 0] 8 [.int64]).pop .i32 =
      some (.err .notEnoughData (Stack.mk [0, 0, 0, 0, 0, 0, 0, 0] 8 [.int64])) ∧
    ValueType.int64 ≠ getValueType .i32 := by
  refine ⟨by decide, by decide, by decide, by decide⟩

/-- C2 amended: `pop<T>` throws the out-of-range `notEnoughData` error —
before any tag comparison — whenever the top tag's size exceeds
`sizeof(T)`, leaving the stack unchanged; throws `typeMismatch` when the
sizes allow but the tag differs from `T`'s mapped tag, leaving the stack
unchanged; and performs the underflow check only after popping the tag
and retracting the pointer, so an underflow failure leaves the tag
removed and the pointer below the base. -/
theorem pop_failure_modes (t : PayloadType) (s : Stack) (tag : ValueType)
    (htop : s.getTypeOnStack 0 = some tag) :
    (getTypeSize tag > sizeofT t → s.pop t = some (.err .notEnoughData s)) ∧
    (getTypeSize tag ≤ sizeofT t → tag ≠ getValueType t →
      s.pop t = some (.err .typeMismatch s)) ∧
    (tag = getValueType t → s.sp - sizeofT t < 0 →
      s.pop t =
        some (.err .underflow { s with types := s.types.dropLast, sp := s.sp - sizeofT t })) := by
  refine ⟨?_, ?_, ?_⟩
  · intro hgt
    unfold Stack.pop
    rw [htop]
    simp only [gt_iff_lt] at hgt ⊢
    rw [if_pos hgt]
  · intro hle hne
    unfold Stack.pop
    rw [htop]
    simp only [gt_iff_lt]
    rw [if_neg (by omega), if_pos hne]
  · intro heq hneg
    unfold Stack.pop
    rw [htop]
    simp only [gt_iff_lt, heq, sizeofT_eq_typeSize, lt_self_iff_false, if_false,
      ne_eq, not_true_eq_false, if_neg, ite_false]
    rw [if_pos hneg]

/-- Witness for `pop_failure_modes`: on an 8-byte stack holding a single
`Int64` tag with the pointer only 4 bytes above the base, `pop<i64>`
throws underflow with the tag already popped and the pointer at `-4`. -/
theorem pop_failure_modes_witness :
    (Stack.mk [0, 0, 0, 0, 0, 0, 0, 0] 4 [.int64]).pop .i64 =
      some (.err .underflow
        { Stack.mk [0, 0, 0, 0, 0, 0, 0, 0] 4 [.int64] with
            types := [ValueType.int64].dropLast, sp := (4 : Int) - sizeofT .i64 }) :=
  (pop_failure_modes .i64 (Stack.mk [0, 0, 0, 0, 0, 0, 0, 0] 4 [.int64]) .int64
    (by decide)).2.2 (by decide) (by decide)

/-! ## Metadata-table lookup (`Assembly::getTableEntry`)

A token is `(table-id byte, 24-bit row index)`; a table row is a byte
slice `(offset, size)` inside the assembly's own file buffer
(`m_data`).  `m_streams.tilde.tableData` is an array of 64 row lists.
The index field is unsigned, so `token.getIndex().index - 1` wraps at
`2 ^ 32` for a null token. -/

structure RowM where
  offset : Nat
  size : Nat
deriving DecidableEq, Repr

structure TokenM where
  id : Nat
  index : Nat
deriving DecidableEq, Repr

structure AssemblyM where
  dataLen : Nat
  tableData : List (List RowM)
deriving DecidableEq, Repr

/-- `Assembly::getTableEntry<T>` with `tid = T::ID`: reject a token whose
table id differs from `T::ID` (`some none`, the `nullptr` return);
compute the 0-based index as the unsigned `index - 1` (wrapping for a
null token); reject an id beyond the 64-entry table array; then apply
the source's bounds check `index > table.size()` — which lets
`index = table.size()` through to an out-of-bounds `table[index]` read,
modelled as `none` (undefined behaviour). -/
def getTableEntryM (A : AssemblyM) (tid : Nat) (tok : TokenM) : Option (Option RowM) :=
  if tok.id ≠ tid then some none
  else
    let idx := if tok.index = 0 then 4294967295 else tok.index - 1
    if tok.id > A.tableData.length then some none
    else
      match A.tableData.get? tok.id with
      | none => none
      | some table =>
        if idx > table.length then some none
        else if h : idx < table.length then some (some (table.get ⟨idx, h⟩))
        else none

/-- C3 counterexample: on an assembly whose table 2 has exactly one row, a
token with matching id and 1-based index 2 (out of range: valid indices
are `1 ≤ i ≤ 1`) does not yield "absent" — the bounds check `index >
table.size()` lets the converted index 1 through and the row array is
read out of bounds (undefined behaviour, `none`), not `some none`. -/
theorem tableEntry_out_of_range_cex :
    getTableEntryM
        (AssemblyM.mk 100 ((List.replicate 64 ([] : List RowM)).set 2 [RowM.mk 8 6]))
        2 (TokenM.mk 2 2) = none ∧
    getTableEntryM
        (AssemblyM.mk 100 ((List.replicate 64 ([] : List RowM)).set 2 [RowM.mk 8 6]))
        2 (TokenM.mk 2 2) ≠ some none := by
  refine ⟨by decide, by decide⟩

/-- C3 amended: with `t.id = T::ID`, an in-range token
(`1 ≤ index ≤ rowCount`) yields a non-absent row view lying inside the
assembly's own byte buffer; a null token (index 0) and any index
`≥ rowCount + 2` yield absent (`nullptr`); but index `= rowCount + 1`
escapes the `index > table.size()` bounds check and performs an
out-of-bounds row-array read (undefined behaviour) instead of yielding
absent. -/
theorem tableEntry_amended (A : AssemblyM) (tid : Nat) (tok : TokenM) (rows : List RowM)
    (hrows : A.tableData.get? tid = some rows)
    (htid : tid ≤ 63) (hlen : A.tableData.length = 64)
    (hid : tok.id = tid)
    (hsmall : rows.length < 4294967295)
    (hwf : ∀ r ∈ rows, r.offset + r.size ≤ A.dataLen) :
    (1 ≤ tok.index → tok.index ≤ rows.length →
      ∃ r, getTableEntryM A tid tok = some (some r) ∧ r ∈ rows ∧
        r.offset + r.size ≤ A.dataLen) ∧
    (tok.index = 0 → getTableEntryM A tid tok = some none) ∧
    (rows.length + 2 ≤ tok.index → getTableEntryM A tid tok = some none) ∧
    (tok.index = rows.length + 1 → getTableEntryM A tid tok = none) := by
  have hbase : ∀ idx : Nat,
      getTableEntryM A tid tok =
        (if (if tok.index = 0 then 4294967295 else tok.index - 1) > rows.length then some none
         else if h : (if tok.index = 0 then 4294967295 else tok.index - 1) < rows.length then
           some (some (rows.get ⟨_, h⟩))
         else none) := by
    intro _
    unfold getTableEntryM
    rw [if_neg (by omega), if_neg (by omega), hid, hrows]
  refine ⟨?_, ?_, ?_, ?_⟩
  · intro h1 h2
    rw [hbase 0]
    rw [if_neg (by split <;> omega)]
    have hlt : (if tok.index = 0 then 4294967295 else tok.index - 1) < rows.length := by
      rw [if_neg (by omega)]; omega
    rw [dif_pos hlt]
    exact ⟨_, rfl, List.get_mem _ _ _, hwf _ (List.get_mem _ _ _)⟩
  · intro h0
    rw [hbase 0, if_pos (by rw [if_pos h0]; omega)]
  · intro hgt
    rw [hbase 0, if_pos (by split <;> omega)]
  · intro heq
    rw [hbase 0]
    rw [if_neg (by rw [if_neg (by omega)]; omega)]
    rw [dif_neg (by rw [if_neg (by omega)]; omega)]

/-- Witness for `tableEntry_amended` on a concrete one-row table: all
four branches instantiated. -/
theorem tableEntry_amended_witness :
    (1 ≤ 1 → 1 ≤ [RowM.mk 8 6].length →
      ∃ r, getTableEntryM
          (AssemblyM.mk 100 ((List.replicate 64 ([] : List RowM)).set 2 [RowM.mk 8 6]))
          2 (TokenM.mk 2 1) = some (some r) ∧ r ∈ [RowM.mk 8 6] ∧
          r.offset + r.size ≤ (AssemblyM.mk 100 ((List.replicate 64 ([] : List RowM)).set 2 [RowM.mk 8 6])).dataLen) ∧
    ((1 : Nat) = 0 → getTableEntryM
        (AssemblyM.mk 100 ((List.replicate 64 ([] : List RowM)).set 2 [RowM.mk 8 6]))
        2 (TokenM.mk 2 1) = some none) ∧
    ([RowM.mk 8 6].length + 2 ≤ 1 → getTableEntryM
        (AssemblyM.mk 100 ((List.replicate 64 ([] : List RowM)).set 2 [RowM.mk 8 6]))
        2 (TokenM.mk 2 1) = some none) ∧
    ((1 : Nat) = [RowM.mk 8 6].length + 1 → getTableEntryM
        (AssemblyM.mk 100 ((List.replicate 64 ([] : List RowM)).set 2 [RowM.mk 8 6]))
        2 (TokenM.mk 2 1) = none) :=
  tableEntry_amended
    (AssemblyM.mk 100 ((List.replicate 64 ([] : List RowM)).set 2 [RowM.mk 8 6]))
    2 (TokenM.mk 2 1) [RowM.mk 8 6]
    (by decide) (by decide) (by decide) (by decide) (by decide)
    (by decide)

/-! ## Reverse lookup `Assembly::getTypeDefOfMethod`

`getTableEntryByIndex<T>(i)` returns `nullptr` for `i = 0` or
`i > rowCount + 1`, reads a row out of bounds for `i = rowCount + 1`
(undefined, `none`), and otherwise a pointer to row `i`.  Row pointers of
one table are in ascending index order, so pointer comparisons between
rows are index comparisons.  A `TypeDef` row is modelled by its
`methodListIndex` column; a row pointer by its 1-based index. -/

structure Asm7 where
  typeDefs : List Nat
  methodDefCount : Nat
deriving DecidableEq, Repr

/-- `getTableEntryByIndex<TypeDef>(i)` on the index alone: `some none` is
`nullptr`, `none` is the out-of-bounds row read at `i = rowCount + 1`,
`some (some i)` a valid pointer to row `i`. -/
def byIndexTD (A : Asm7) (i : Nat) : Option (Option Nat) :=
  if i = 0 then some none
  else if i > A.typeDefs.length + 1 then some none
  else if i = A.typeDefs.length + 1 then none
  else some (some i)

/-- `getTableEntryByIndex<MethodDef>(i)`, same shape. -/
def byIndexMD (A : Asm7) (i : Nat) : Option (Option Nat) :=
  if i = 0 then some none
  else if i > A.methodDefCount + 1 then some none
  else if i = A.methodDefCount + 1 then none
  else some (some i)

/-- `methodListIndex` column of `TypeDef` row `i` (1-based). -/
def tdMethodList (A : Asm7) (i : Nat) : Option Nat :=
  A.typeDefs.get? (i - 1)

/-- Loop body of `Assembly::getTypeDefOfMethod`: iterate `i` from 1 while
`i < methodDefCount` (the MethodDef row count, not the TypeDef count);
fetch TypeDef rows `i` and `i + 1` and the MethodDef rows at their
`methodListIndex` columns (a `nullptr` dereference or comparison is
undefined); when the sought MethodDef row lies in
`[currMethodDef, nextMethodDef)` return the *next* TypeDef row `i + 1`;
otherwise fall through to `getTableEntryByIndex<TypeDef>(methodDefCount)`. -/
def typeDefOfMethodGo (A : Asm7) (m : Nat) : Nat → Nat → Option (Option Nat)
  | 0, _ => none
  | fuel + 1, i =>
    if i < A.methodDefCount then
      match byIndexTD A i, byIndexTD A (i + 1) with
      | some (some ci), some (some ni) =>
        match tdMethodList A ci, tdMethodList A ni with
        | some mlC, some mlN =>
          match byIndexMD A mlC, byIndexMD A mlN with
          | some (some cM), some (some nM) =>
            if cM ≤ m ∧ m < nM then some (some (i + 1))
            else typeDefOfMethodGo A m fuel (i + 1)
          | _, _ => none
        | _, _ => none
      | _, _ => none
    else byIndexTD A A.methodDefCount

/-- `Assembly::getTypeDefOfMethod` for MethodDef row `m`. -/
def getTypeDefOfMethodM (A : Asm7) (m : Nat) : Option (Option Nat) :=
  typeDefOfMethodGo A m (A.methodDefCount + 1) 1

/-- Modelled from the spec: type `i` owns the methods in
`[type[i].methodList, type[i+1].methodList)` and the last TypeDef owns
the tail of the MethodDef table. -/
def typeDefOwnsMethod (A : Asm7) (t m : Nat) : Bool :=
  match A.typeDefs.get? (t - 1) with
  | none => false
  | some ml =>
    match A.typeDefs.get? t with
    | some mlNext => decide (ml ≤ m ∧ m < mlNext)
    | none => decide (ml ≤ m ∧ m ≤ A.methodDefCount)

/-- C7: evaluation of `getTypeDefOfMethod` at a concrete assembly with two
TypeDef rows whose `methodListIndex` columns are 1 and 2 and three
MethodDef rows.  MethodDef row 1 lies in TypeDef 1's range `[1, 2)`, yet
the function returns TypeDef row 2: the loop's range test identifies the
owner as the current row but the `return` hands back `nextTypeDef`, and
the iteration bound is the MethodDef row count. -/
theorem typeDefOfMethod_bug_eval :
    getTypeDefOfMethodM (Asm7.mk [1, 2] 3) 1 = some (some 2) ∧
    typeDefOwnsMethod (Asm7.mk [1, 2] 3) 2 1 = false ∧
    typeDefOwnsMethod (Asm7.mk [1, 2] 3) 1 1 = true := by
  refine ⟨by decide, by decide, by decide⟩

/-! ## `Assembly::getMethodByName`

TypeDef rows carry a namespace-name index, a type-name index and a
`methodListIndex`; MethodDef rows carry a name index.  `#Strings`-heap
values are abstracted to the identifiers the indices resolve to
(`strings : Nat → Nat`), preserving string equality. -/

structure TypeRowM where
  nsIdx : Nat
  nameIdx : Nat
  methodList : Nat
deriving DecidableEq, Repr

structure MethodRowM where
  nameIdx : Nat
deriving DecidableEq, Repr

structure Asm5 where
  typeDefs : List TypeRowM
  methodDefs : List MethodRowM
  strings : Nat → Nat

/-- Inner loop of `getMethodByName` once its constant guard
`index < nextTypeDef->methodListIndex.index` held: scan MethodDef rows
from `methodListIndex` upward — with no range bound, since the guard does
not involve `methodListIndex` — until a name matches, running past the
table end into an out-of-bounds read (`none`) when no name ever does. -/
def scanMethodsM (A : Asm5) (nm : Nat) : Nat → Nat → Option (Option Nat)
  | 0, _ => none
  | fuel + 1, i =>
    if i = 0 then none
    else if h : i - 1 < A.methodDefs.length then
      if A.strings (A.methodDefs.get ⟨i - 1, h⟩).nameIdx = nm then some (some i)
      else scanMethodsM A nm fuel (i + 1)
    else none

/-- Outer loop of `Assembly::getMethodByName`: scan TypeDef rows; on a
namespace + type-name match fetch `nextTypeDef` at `index + 2` (an
out-of-bounds row read when the match is the last TypeDef); then run the
inner loop under its guard `index < nextTypeDef->methodListIndex.index`
— comparing the outer TypeDef counter, not the running MethodDef index. -/
def methodByNameGo (A : Asm5) (ns ty nm : Nat) : Nat → Nat → Option (Option Nat)
  | 0, _ => none
  | fuel + 1, index =>
    if h : index < A.typeDefs.length then
      let td := A.typeDefs.get ⟨index, h⟩
      if A.strings td.nsIdx ≠ ns then methodByNameGo A ns ty nm fuel (index + 1)
      else if A.strings td.nameIdx ≠ ty then methodByNameGo A ns ty nm fuel (index + 1)
      else if h2 : index + 1 < A.typeDefs.length then
        let next := A.typeDefs.get ⟨index + 1, h2⟩
        if index < next.methodList then
          scanMethodsM A nm (A.methodDefs.length + 2) td.methodList
        else methodByNameGo A ns ty nm fuel (index + 1)
      else none
    else some none

/-- `Assembly::getMethodByName`. -/
def getMethodByNameM (A : Asm5) (ns ty nm : Nat) : Option (Option Nat) :=
  methodByNameGo A ns ty nm (A.typeDefs.length + 1) 0

/-- Modelled from the spec: linear scan of TypeDef rows; when
namespace + name match, scan that type's method range
`[methodList, nextMethodList)` (the last type owning the tail) comparing
the method name; absent means `MemberNotFound`. -/
def getMethodByNameSpec (A : Asm5) (ns ty nm : Nat) : Option Nat :=
  (List.range A.typeDefs.length).findSome? fun index =>
    match A.typeDefs.get? index with
    | none => none
    | some td =>
      if A.strings td.nsIdx = ns ∧ A.strings td.nameIdx = ty then
        let hi := match A.typeDefs.get? (index + 1) with
          | some next => next.methodList
          | none => A.methodDefs.length + 1
        (List.range (hi - td.methodList)).findSome? fun k =>
          match A.methodDefs.get? (td.methodList + k - 1) with
          | none => none
          | some md => if A.strings md.nameIdx = nm then some (td.methodList + k) else none
      else none

/-- C5: evaluation at a concrete assembly with two TypeDef rows — `Ns.C`
owning MethodDef range `[1, 2)` (one method, named `Foo` = 5) and
`Ns2.D` owning `[2, 2]` (one method, named `M` = 6).  Looking up
`M` inside `Ns.C` must per the claim raise `MemberNotFound` (the spec
scan yields `none`), but the code's inner loop — whose guard compares
the outer TypeDef counter instead of the running MethodDef index — walks
past `Ns.C`'s range and returns `Ns2.D`'s method, MethodDef row 2. -/
theorem methodByName_bug_eval :
    getMethodByNameM (Asm5.mk [TypeRowM.mk 1 2 1, TypeRowM.mk 3 4 2]
        [MethodRowM.mk 5, MethodRowM.mk 6] id) 1 2 6 = some (some 2) ∧
    getMethodByNameSpec (Asm5.mk [TypeRowM.mk 1 2 1, TypeRowM.mk 3 4 2]
        [MethodRowM.mk 5, MethodRowM.mk 6] id) 1 2 6 = none := by
  refine ⟨by decide, by decide⟩

/-! ## Blob length decoding (`getBlobHeaderSize` / `getBlobSize`)

The decoder reads bytes through a pointer, modelled as a byte-valued
function of the offset. -/

/-- `ili::getBlobHeaderSize`. -/
def getBlobHeaderSize (firstByte : Nat) : Nat :=
  if firstByte &&& 0x80 = 0x00 then 1
  else if firstByte &&& 0xC0 = 0x80 then 2
  else if firstByte &&& 0xE0 = 0xC0 then 4
  else 0

/-- `ili::getBlobSize`. -/
def getBlobSize (blobStart : Nat → Nat) (index : Nat) : Nat :=
  match getBlobHeaderSize (blobStart index) with
  | 1 => blobStart index
  | 2 => ((blobStart index &&& 0x3F) <<< 8) + blobStart (index + 1)
  | 4 => ((blobStart index &&& 0x1F) <<< 24)
          + (blobStart (index + 1) <<< 16)
          + (blobStart (index + 2) <<< 8)
          + (blobStart (index + 3) <<< 0)
  | _ => 0

/-- Modelled from the spec: the blob length-prefix encoding — `0xxxxxxx`
for 7-bit lengths, `10xxxxxx` plus one byte for 14-bit lengths,
`110xxxxx` plus three bytes for 29-bit lengths, big-endian payload. -/
def encodeBlobLen (L : Nat) : List Nat :=
  if L < 128 then [L]
  else if L < 16384 then [128 + L / 256, L % 256]
  else [192 + L / 16777216, L / 65536 % 256, L / 256 % 256, L % 256]

theorem land_128_of_lt {L : Nat} (h : L < 128) : L &&& 0x80 = 0 := by
  revert h
  revert L
  decide

theorem second_byte_header {t : Nat} (h : t < 64) :
    (128 + t) &&& 0x80 = 128 ∧ (128 + t) &&& 0xC0 = 0x80 ∧ (128 + t) &&& 0x3F = t := by
  revert h
  revert t
  decide

theorem fourth_byte_header {t : Nat} (h : t < 32) :
    (192 + t) &&& 0x80 = 128 ∧ (192 + t) &&& 0xC0 = 192 ∧
    (192 + t) &&& 0xE0 = 0xC0 ∧ (192 + t) &&& 0x1F = t := by
  revert h
  revert t
  decide

theorem getBlobSize_hdr1 (b : Nat → Nat) (i : Nat) (h : getBlobHeaderSize (b i) = 1) :
    getBlobSize b i = b i := by
  unfold getBlobSize
  rw [h]

theorem getBlobSize_hdr2 (b : Nat → Nat) (i : Nat) (h : getBlobHeaderSize (b i) = 2) :
    getBlobSize b i = ((b i &&& 0x3F) <<< 8) + b (i + 1) := by
  unfold getBlobSize
  rw [h]

theorem getBlobSize_hdr4 (b : Nat → Nat) (i : Nat) (h : getBlobHeaderSize (b i) = 4) :
    getBlobSize b i = ((b i &&& 0x1F) <<< 24) + (b (i + 1) <<< 16)
      + (b (i + 2) <<< 8) + (b (i + 3) <<< 0) := by
  unfold getBlobSize
  rw [h]

/-- C9: for every length `L < 2 ^ 29`, decoding the encoded blob length
header with the source's `getBlobSize` yields `L` back. -/
theorem blob_roundtrip (L : Nat) (hL : L < 536870912) :
    getBlobSize (fun i => (encodeBlobLen L).getD i 0) 0 = L := by
  by_cases h1 : L < 128
  · have he : encodeBlobLen L = [L] := by
      simp [encodeBlobLen, if_pos h1]
    have hb0 : (encodeBlobLen L).getD 0 0 = L := by
      rw [he]; rfl
    have hhdr : getBlobHeaderSize ((encodeBlobLen L).getD 0 0) = 1 := by
      rw [hb0]
      unfold getBlobHeaderSize
      rw [if_pos (land_128_of_lt h1)]
    rw [getBlobSize_hdr1 (fun i => (encodeBlobLen L).getD i 0) 0 hhdr, hb0]
  · by_cases h2 : L < 16384
    · have ht : L / 256 < 64 := by omega
      have hb := second_byte_header ht
      have he : encodeBlobLen L = [128 + L / 256, L % 256] := by
        simp [encodeBlobLen, if_neg h1, if_pos h2]
      have hb0 : (encodeBlobLen L).getD 0 0 = 128 + L / 256 := by
        rw [he]; rfl
      have hb1 : (encodeBlobLen L).getD 1 0 = L % 256 := by
        rw [he]; rfl
      have hhdr : getBlobHeaderSize ((encodeBlobLen L).getD 0 0) = 2 := by
        rw [hb0]
        unfold getBlobHeaderSize
        rw [if_neg (by rw [hb.1]; norm_num), if_pos hb.2.1]
      rw [getBlobSize_hdr2 (fun i => (encodeBlobLen L).getD i 0) 0 hhdr, hb0, hb1,
        hb.2.2, Nat.shiftLeft_eq]
      norm_num
      omega
    · have ht : L / 16777216 < 32 := by omega
      have hb := fourth_byte_header ht
      have he : encodeBlobLen L = [192 + L / 16777216, L / 65536 % 256, L / 256 % 256, L % 256] := by
        simp [encodeBlobLen, if_neg h1, if_neg h2]
      have hb0 : (encodeBlobLen L).getD 0 0 = 192 + L / 16777216 := by
        rw [he]; rfl
      have hb1 : (encodeBlobLen L).getD 1 0 = L / 65536 % 256 := by
        rw [he]; rfl
      have hb2 : (encodeBlobLen L).getD 2 0 = L / 256 % 256 := by
        rw [he]; rfl
      have hb3 : (encodeBlobLen L).getD 3 0 = L % 256 := by
        rw [he]; rfl
      have hhdr : getBlobHeaderSize ((encodeBlobLen L).getD 0 0) = 4 := by
        rw [hb0]
        unfold getBlobHeaderSize
        rw [if_neg (by rw [hb.1]; norm_num), if_neg (by rw [hb.2.1]; norm_num),
          if_pos hb.2.2.1]
      rw [getBlobSize_hdr4 (fun i => (encodeBlobLen L).getD i 0) 0 hhdr, hb0, hb1, hb2, hb3,
        hb.2.2.2]
      simp only [Nat.shiftLeft_eq]
      norm_num
      omega

/-- Witness for `blob_roundtrip` at `L = 100000` (a 29-bit-form length). -/
theorem blob_roundtrip_witness :
    getBlobSize (fun i => (encodeBlobLen 100000).getD i 0) 0 = 100000 :=
  blob_roundtrip 100000 (by decide)

/-! ## Runtime state and instruction dispatch

The `Runtime` handlers from the execution unit.  Typed variables
(`ili::Variable<T>`) are `(tag, bit-pattern)` pairs.  A method frame owns
a 255-slot array of optional locals (`std::array<std::unique_ptr<...>,
0xFF>`).  Global runtime state: the evaluation stack, the frame list
`m_methodStack` (pushed only by `Runtime::run`), the static-variable map,
the initialized-type set, and the heap-key counter with the heap map's
key/size pairs (a managed reference's payload is abstracted to the heap
key; the source stores the buffer's native address, which the spec
documents as an opaque 64-bit identifier).

Member-resolution helpers used by the handlers but defined outside the
execution unit (`getTypeDefOfField`, `getMethodOfType(".cctor")`,
`getTypeSize` of a TypeDef, and `getTypeDefOfMethod` as used by `newobj`)
are abstracted to environment functions.  Method bodies are decoded
instruction lists; the per-method-token body map stands for
`Method::getInstructions`. -/

structure Var where
  type : ValueType
  value : Nat
deriving DecidableEq, Repr

/-- Runtime errors thrown by the handlers: the `"Invalid method token
type"` errors on an `Invalid` tag, propagated stack exceptions, and the
`"Heap object already exists"` invariant error. -/
inductive RtErr where
  | invalidValueType
  | stackErr (e : StackErr)
  | heapCollision
deriving DecidableEq, Repr

inductive VRes where
  | ok (v : Var) (s : Stack)
  | err (e : RtErr) (s : Stack)
deriving DecidableEq, Repr

inductive SRes where
  | ok (s : Stack)
  | err (e : RtErr) (s : Stack)
deriving DecidableEq, Repr

/-- `Runtime::createVariableFromStackContent`: dispatch on the top tag
(undefined on an empty stack), throw on `Invalid`, otherwise pop with the
tag's own payload type and capture `(tag, value)`. -/
def createVarFromStack (s : Stack) : Option VRes :=
  match s.getTypeOnStack 0 with
  | none => none
  | some tag =>
    match payloadOfValueType tag with
    | none => some (.err .invalidValueType s)
    | some pt =>
      match s.pop pt with
      | none => none
      | some (.ok v s') => some (.ok (Var.mk tag v) s')
      | some (.err e s') => some (.err (.stackErr e) s')

/-- `Runtime::storeVariableOnStack`: dispatch on the variable's tag,
throw on `Invalid`, otherwise push the payload with the tag's payload
type.  (`Runtime::ldloc` pushes a local through the identical tag
switch.) -/
def storeVarOnStack (v : Var) (s : Stack) : Option SRes :=
  match payloadOfValueType v.type with
  | none => some (.err .invalidValueType s)
  | some pt =>
    match s.push pt v.value with
    | none => none
    | some s' => some (.ok s')

/-- Observable events of a dispatch run: one `dispatch` per instruction
handed to the opcode switch, recording the executing method and the
frame list `m_methodStack` at that moment, and one `invokeCctor` per
static-initializer invocation. -/
inductive Ev where
  | dispatch (m : Nat) (mstack : List Nat)
  | invokeCctor (td : Nat)
deriving DecidableEq, Repr

/-- How a frame's dispatch ended: `Ret`/end-of-code, or an exception
unwinding out of `executeInstructions`. -/
inductive Res where
  | ok
  | err (e : RtErr)
deriving DecidableEq, Repr

/-- The decoded instructions the dispatcher handles (the subset of the
opcode switch relevant to the stated theorems; `Ldc_i4*` forms all reach
`ldc<i32>`). -/
inductive Instr where
  | nop
  | ldarg (n : Nat)
  | ldcI4 (v : Int)
  | stloc (n : Nat)
  | ldloc (n : Nat)
  | pop
  | ret
  | call (mId : Nat)
  | newobj (mId : Nat)
  | ldsfld (f : Nat)
  | stsfld (f : Nat)
deriving DecidableEq, Repr

/-- A frame's 255-slot local-variable array. -/
abbrev Locals := List (Option Var)

def freshLocals : Locals := List.replicate 255 none

structure Globals where
  stack : Stack
  methodStack : List Nat
  staticVars : List (Nat × Var)
  initTypes : List Nat
  heapKey : Nat
  heapSizes : List (Nat × Nat)
deriving DecidableEq, Repr

/-- The assembly-derived environment: method bodies by method id, the
declaring TypeDef of a field, the `.cctor` method of a TypeDef, the
declaring TypeDef of a method and a TypeDef's object size. -/
structure Env where
  methods : Nat → List Instr
  fieldTypeDef : Nat → Nat
  cctorOf : Nat → Nat
  methodTypeDef : Nat → Nat
  typeSizeOf : Nat → Nat

def lookupStatic (l : List (Nat × Var)) (f : Nat) : Option Var :=
  match l.find? (fun p => p.1 == f) with
  | none => none
  | some p => some p.2

def insertStatic (l : List (Nat × Var)) (f : Nat) (v : Var) : List (Nat × Var) :=
  match l with
  | [] => [(f, v)]
  | p :: rest => if p.1 = f then (f, v) :: rest else p :: insertStatic rest f v

/-- The `i32` bit pattern of a signed constant operand. -/
def toU32 (v : Int) : Nat := (v % 4294967296).toNat

/-- `Runtime::loadStaticField`, split off from the dispatcher: resolve
the field's declaring type; exactly when `m_initializedTypes.insert`
reports a new element, it is inserted *before* the `.cctor` frame's
recursive dispatch (whose fully-applied result the dispatcher passes in
as `cctorRun`; it is ignored on the already-initialized path). -/
def loadStaticRes (td : Nat) (g : Globals)
    (cctorRun : Option (Res × Locals × Globals × List Ev)) :
    Option (Res × Globals × List Ev) :=
  if td ∈ g.initTypes then some (.ok, g, [])
  else
    match cctorRun with
    | none => none
    | some (r, _, g2, trB) => some (r, g2, Ev.invokeCctor td :: trB)

/-- `Runtime::executeInstructions`, fuelled: iterate the frame's
instruction sequence, dispatching each opcode; `Ret` ends the frame's
dispatch; `Call`/`Newobj` and a `.cctor` run construct a fresh frame (its
own locals) and recursively enter dispatch — the frame list
`m_methodStack` is not touched by any handler.  `ldsfld`/`stsfld` first
perform `Runtime::loadStaticField`: resolve the field's declaring type
and, exactly when `m_initializedTypes.insert` reports a new element,
insert it *before* resolving and dispatching the `.cctor` frame.
Exceptions (`Res.err`) unwind through the callers; `none` is undefined
behaviour (including fuel exhaustion, which only lowers coverage). -/
def exec (env : Env) : Nat → Nat → List Instr → Locals → Globals →
    Option (Res × Locals × Globals × List Ev)
  | 0, _, _, _, _ => none
  | _ + 1, _, [], loc, g => some (.ok, loc, g, [])
  | fuel + 1, m, .nop :: rest, loc, g =>
    match exec env fuel m rest loc g with
    | none => none
    | some (r, l2, g2, tr) => some (r, l2, g2, Ev.dispatch m g.methodStack :: tr)
  | fuel + 1, m, .ldarg _ :: rest, loc, g =>
    match exec env fuel m rest loc g with
    | none => none
    | some (r, l2, g2, tr) => some (r, l2, g2, Ev.dispatch m g.methodStack :: tr)
  | fuel + 1, m, .ldcI4 v :: rest, loc, g =>
    match g.stack.push .i32 (toU32 v) with
    | none => none
    | some s' =>
      match exec env fuel m rest loc { g with stack := s' } with
      | none => none
      | some (r, l2, g2, tr) => some (r, l2, g2, Ev.dispatch m g.methodStack :: tr)
  | fuel + 1, m, .stloc n :: rest, loc, g =>
    if n < 255 then
      match createVarFromStack g.stack with
      | none => none
      | some (.err e s') =>
        some (.err e, loc, { g with stack := s' }, [Ev.dispatch m g.methodStack])
      | some (.ok v s') =>
        match exec env fuel m rest (loc.set n (some v)) { g with stack := s' } with
        | none => none
        | some (r, l2, g2, tr) => some (r, l2, g2, Ev.dispatch m g.methodStack :: tr)
    else none
  | fuel + 1, m, .ldloc n :: rest, loc, g =>
    if n < 255 then
      match loc.get? n with
      | none => none
      | some none => none
      | some (some var) =>
        match storeVarOnStack var g.stack with
        | none => none
        | some (.err e s') =>
          some (.err e, loc, { g with stack := s' }, [Ev.dispatch m g.methodStack])
        | some (.ok s') =>
          match exec env fuel m rest (loc.set n none) { g with stack := s' } with
          | none => none
          | some (r, l2, g2, tr) => some (r, l2, g2, Ev.dispatch m g.methodStack :: tr)
    else none
  | fuel + 1, m, .pop :: rest, loc, g =>
    match createVarFromStack g.stack with
    | none => none
    | some (.err e s') =>
      some (.err e, loc, { g with stack := s' }, [Ev.dispatch m g.methodStack])
    | some (.ok _ s') =>
      match exec env fuel m rest loc { g with stack := s' } with
      | none => none
      | some (r, l2, g2, tr) => some (r, l2, g2, Ev.dispatch m g.methodStack :: tr)
  | _ + 1, m, .ret :: _, loc, g => some (.ok, loc, g, [Ev.dispatch m g.methodStack])
  | fuel + 1, m, .call mId :: rest, loc, g =>
    match exec env fuel mId (env.methods mId) freshLocals g with
    | none => none
    | some (.err e, _, g2, trB) => some (.err e, loc, g2, Ev.dispatch m g.methodStack :: trB)
    | some (.ok, _, g2, trB) =>
      match exec env fuel m rest loc g2 with
      | none => none
      | some (r, l2, g3, tr2) => some (r, l2, g3, Ev.dispatch m g.methodStack :: (trB ++ tr2))
  | fuel + 1, m, .newobj mId :: rest, loc, g =>
    if (g.heapSizes.find? (fun p => p.1 == g.heapKey)).isSome then
      some (.err .heapCollision, loc, g, [Ev.dispatch m g.methodStack])
    else
      match storeVarOnStack (Var.mk .o g.heapKey)
          { g with heapSizes := (g.heapKey, env.typeSizeOf (env.methodTypeDef mId)) :: g.heapSizes,
                   heapKey := g.heapKey + 1 }.stack with
      | none => none
      | some (.err e s') =>
        some (.err e, loc,
          { g with heapSizes := (g.heapKey, env.typeSizeOf (env.methodTypeDef mId)) :: g.heapSizes,
                   heapKey := g.heapKey + 1, stack := s' },
          [Ev.dispatch m g.methodStack])
      | some (.ok s') =>
        match exec env fuel mId (env.methods mId) freshLocals
            { g with heapSizes := (g.heapKey, env.typeSizeOf (env.methodTypeDef mId)) :: g.heapSizes,
                     heapKey := g.heapKey + 1, stack := s' } with
        | none => none
        | some (.err e, _, g2, trB) => some (.err e, loc, g2, Ev.dispatch m g.methodStack :: trB)
        | some (.ok, _, g2, trB) =>
          match exec env fuel m rest loc g2 with
          | none => none
          | some (r, l2, g3, tr2) => some (r, l2, g3, Ev.dispatch m g.methodStack :: (trB ++ tr2))
  | fuel + 1, m, .ldsfld f :: rest, loc, g =>
    match loadStaticRes (env.fieldTypeDef f) g
        (exec env fuel (env.cctorOf (env.fieldTypeDef f))
          (env.methods (env.cctorOf (env.fieldTypeDef f))) freshLocals
          { g with initTypes := env.fieldTypeDef f :: g.initTypes }) with
    | none => none
    | some (.err e, g2, trB) => some (.err e, loc, g2, Ev.dispatch m g.methodStack :: trB)
    | some (.ok, g2, trB) =>
      match lookupStatic g2.staticVars f with
      | none => none
      | some v =>
        match storeVarOnStack v g2.stack with
        | none => none
        | some (.err e s') =>
          some (.err e, loc, { g2 with stack := s' }, Ev.dispatch m g.methodStack :: trB)
        | some (.ok s') =>
          match exec env fuel m rest loc { g2 with stack := s' } with
          | none => none
          | some (r, l2, g3, tr2) => some (r, l2, g3, Ev.dispatch m g.methodStack :: (trB ++ tr2))
  | fuel + 1, m, .stsfld f :: rest, loc, g =>
    match loadStaticRes (env.fieldTypeDef f) g
        (exec env fuel (env.cctorOf (env.fieldTypeDef f))
          (env.methods (env.cctorOf (env.fieldTypeDef f))) freshLocals
          { g with initTypes := env.fieldTypeDef f :: g.initTypes }) with
    | none => none
    | some (.err e, g2, trB) => some (.err e, loc, g2, Ev.dispatch m g.methodStack :: trB)
    | some (.ok, g2, trB) =>
      match createVarFromStack g2.stack with
      | none => none
      | some (.err e s') =>
        some (.err e, loc, { g2 with stack := s' }, Ev.dispatch m g.methodStack :: trB)
      | some (.ok v s') =>
        match exec env fuel m rest loc
            { g2 with stack := s', staticVars := insertStatic g2.staticVars f v } with
        | none => none
        | some (r, l2, g3, tr2) => some (r, l2, g3, Ev.dispatch m g.methodStack :: (trB ++ tr2))

/-- `Runtime::run`: intern the assembly, size the evaluation stack from
the optional header's `sizeOfStackReserve` (zero-initialised bytes),
push the entrypoint `Method` frame onto `m_methodStack`, and enter
`executeInstructions`. -/
def runModel (env : Env) (fuel : Nat) (entry : Nat) (stackSize : Nat) :
    Option (Res × Locals × Globals × List Ev) :=
  exec env fuel entry (env.methods entry) freshLocals
    (Globals.mk (Stack.mk (List.replicate stackSize 0) 0 []) [entry] [] [] 0 [])

/-- Prefix one event onto a dispatch result's trace (absorbing undefined
behaviour). -/
def consEv (ev : Ev) : Option (Res × Locals × Globals × List Ev) →
    Option (Res × Locals × Globals × List Ev)
  | none => none
  | some (r, l, g, tr) => some (r, l, g, ev :: tr)

/-- Dispatch invariant relating a pre-state, the emitted trace and the
post-state: the frame list is untouched and every dispatch event records
it; the initialized-type set only grows; and each type's `.cctor` is
invoked at most once, an invocation marking exactly the transition of
that type from outside to inside the set. -/
def DispatchInv (g : Globals) (tr : List Ev) (g' : Globals) : Prop :=
  g'.methodStack = g.methodStack ∧
  (∀ m ms, Ev.dispatch m ms ∈ tr → ms = g.methodStack) ∧
  g.initTypes ⊆ g'.initTypes ∧
  ∀ td, tr.count (Ev.invokeCctor td) ≤ 1 ∧
    (1 ≤ tr.count (Ev.invokeCctor td) → td ∉ g.initTypes ∧ td ∈ g'.initTypes)

theorem inv_pure_nil {g g' : Globals} (hms : g'.methodStack = g.methodStack)
    (hit : g'.initTypes = g.initTypes) : DispatchInv g [] g' := by
  refine ⟨hms, by simp, by rw [hit]; exact fun x hx => hx, fun td => ⟨by simp, by simp⟩⟩

theorem count_singleton_le (a b : Ev) : [b].count a ≤ 1 := by
  by_cases h : a = b
  · subst h
    simp
  · rw [List.count_eq_zero_of_not_mem (by simp [h])]
    omega

theorem inv_dispatch {g g' : Globals} (m : Nat)
    (hms : g'.methodStack = g.methodStack)
    (hit : g'.initTypes = g.initTypes) :
    DispatchInv g [Ev.dispatch m g.methodStack] g' := by
  refine ⟨hms, ?_, by rw [hit]; exact fun x hx => hx,
    fun td => ⟨count_singleton_le _ _, ?_⟩⟩
  · intro m2 ms hmem
    simp at hmem
    exact hmem.2
  · intro hcnt
    exfalso
    rw [List.count_eq_zero_of_not_mem (by simp)] at hcnt
    omega

theorem inv_invoke {g : Globals} {td : Nat} (h : td ∉ g.initTypes) :
    DispatchInv g [Ev.invokeCctor td] { g with initTypes := td :: g.initTypes } := by
  refine ⟨rfl, by simp, fun x hx => List.mem_cons_of_mem _ hx, fun td2 => ⟨count_singleton_le _ _, ?_⟩⟩
  intro hcnt
  by_cases heq : td2 = td
  · subst heq
    exact ⟨h, List.mem_cons_self _ _⟩
  · exfalso
    rw [List.count_eq_zero_of_not_mem (by simp [heq])] at hcnt
    omega

theorem inv_comp {g1 g2 g3 : Globals} {tr1 tr2 : List Ev}
    (h1 : DispatchInv g1 tr1 g2) (h2 : DispatchInv g2 tr2 g3) : DispatchInv g1 (tr1 ++ tr2) g3 := by
  obtain ⟨hms1, hd1, hsub1, hc1⟩ := h1
  obtain ⟨hms2, hd2, hsub2, hc2⟩ := h2
  refine ⟨by rw [hms2, hms1], ?_, fun x hx => hsub2 (hsub1 hx), ?_⟩
  · intro m ms hmem
    rcases List.mem_append.mp hmem with hmem | hmem
    · exact hd1 m ms hmem
    · rw [hd2 m ms hmem, hms1]
  · intro td
    obtain ⟨hle1, him1⟩ := hc1 td
    obtain ⟨hle2, him2⟩ := hc2 td
    rw [List.count_append]
    by_cases hz1 : 1 ≤ tr1.count (Ev.invokeCctor td)
    · obtain ⟨hni, hmem2⟩ := him1 hz1
      have hz2 : tr2.count (Ev.invokeCctor td) = 0 := by
        by_contra hne
        exact (him2 (by omega)).1 hmem2
      constructor
      · omega
      · intro _
        exact ⟨hni, hsub2 hmem2⟩
    · have hz1' : tr1.count (Ev.invokeCctor td) = 0 := by omega
      rw [hz1']
      simp only [Nat.zero_add]
      refine ⟨hle2, fun hge => ?_⟩
      obtain ⟨hni2, hmem3⟩ := him2 hge
      exact ⟨fun hmem1 => hni2 (hsub1 hmem1), hmem3⟩


theorem dispatchInv_cast_start {g1 g1' g2 : Globals} {tr : List Ev}
    (h : DispatchInv g1' tr g2)
    (hms : g1'.methodStack = g1.methodStack) (hit : g1'.initTypes = g1.initTypes) :
    DispatchInv g1 tr g2 := by
  obtain ⟨a, b, c, d⟩ := h
  refine ⟨by rw [a, hms], fun m ms hm => by rw [b m ms hm, hms], by rw [← hit]; exact c, ?_⟩
  intro td
  obtain ⟨d1, d2⟩ := d td
  exact ⟨d1, fun hc => by rw [← hit]; exact d2 hc⟩

theorem dispatchInv_cast_end {g1 g2 g2' : Globals} {tr : List Ev}
    (h : DispatchInv g1 tr g2)
    (hms : g2'.methodStack = g2.methodStack) (hit : g2'.initTypes = g2.initTypes) :
    DispatchInv g1 tr g2' := by
  obtain ⟨a, b, c, d⟩ := h
  refine ⟨by rw [hms, a], b, by rw [hit]; exact c, ?_⟩
  intro td
  obtain ⟨d1, d2⟩ := d td
  refine ⟨d1, fun hc => ?_⟩
  obtain ⟨e1, e2⟩ := d2 hc
  exact ⟨e1, by rw [hit]; exact e2⟩

theorem loadStaticRes_inv {td : Nat} {g : Globals}
    {run : Option (Res × Locals × Globals × List Ev)} {r : Res} {g2 : Globals} {trB : List Ev}
    (h : loadStaticRes td g run = some (r, g2, trB))
    (hrun : ∀ rB lB gB trX, run = some (rB, lB, gB, trX) →
      DispatchInv { g with initTypes := td :: g.initTypes } trX gB) :
    DispatchInv g trB g2 := by
  unfold loadStaticRes at h
  by_cases hin : td ∈ g.initTypes
  · rw [if_pos hin] at h
    simp only [Option.some.injEq, Prod.mk.injEq] at h
    obtain ⟨-, h2, h3⟩ := h
    subst h2
    subst h3
    exact inv_pure_nil rfl rfl
  · rw [if_neg hin] at h
    cases hrc : run with
    | none => rw [hrc] at h; cases h
    | some out =>
      obtain ⟨rB, lB, gB, trX⟩ := out
      rw [hrc] at h
      simp only [Option.some.injEq, Prod.mk.injEq] at h
      obtain ⟨-, h2, h3⟩ := h
      subst h2
      subst h3
      rw [← List.singleton_append]
      exact inv_comp (inv_invoke hin) (hrun rB lB gB trX hrc)

/-- Every successful (or exception-unwinding) dispatch satisfies the
dispatch invariant: handlers never touch `m_methodStack`, the
initialized-type set only grows, and each `.cctor` fires at most once,
exactly at its type's insertion. -/
theorem exec_inv : ∀ (fuel : Nat) (env : Env) (m : Nat) (instrs : List Instr)
    (loc : Locals) (g : Globals) (r : Res) (loc2 : Locals) (g2 : Globals) (tr : List Ev),
    exec env fuel m instrs loc g = some (r, loc2, g2, tr) → DispatchInv g tr g2 := by
  intro fuel
  induction fuel with
  | zero =>
    intro env m instrs loc g r loc2 g2 tr h
    simp [exec] at h
  | succ fuel ih =>
    intro env m instrs loc g r loc2 g2 tr h
    cases instrs with
    | nil =>
      simp only [exec, Option.some.injEq, Prod.mk.injEq] at h
      obtain ⟨-, -, h3, h4⟩ := h
      subst h3
      subst h4
      exact inv_pure_nil rfl rfl
    | cons i rest =>
      cases i with
      | nop =>
        simp only [exec] at h
        split at h
        · cases h
        · simp only [Option.some.injEq, Prod.mk.injEq] at h
          obtain ⟨-, -, h3, h4⟩ := h
          subst h3
          subst h4
          rw [← List.singleton_append]
          exact inv_comp (inv_dispatch m rfl rfl)
            (dispatchInv_cast_start (ih _ _ _ _ _ _ _ _ _ (by assumption)) (by rfl) (by rfl))
      | ldarg n =>
        simp only [exec] at h
        split at h
        · cases h
        · simp only [Option.some.injEq, Prod.mk.injEq] at h
          obtain ⟨-, -, h3, h4⟩ := h
          subst h3
          subst h4
          rw [← List.singleton_append]
          exact inv_comp (inv_dispatch m rfl rfl)
            (dispatchInv_cast_start (ih _ _ _ _ _ _ _ _ _ (by assumption)) (by rfl) (by rfl))
      | ldcI4 v =>
        simp only [exec] at h
        split at h
        · cases h
        · split at h
          · cases h
          · simp only [Option.some.injEq, Prod.mk.injEq] at h
            obtain ⟨-, -, h3, h4⟩ := h
            subst h3
            subst h4
            rw [← List.singleton_append]
            exact inv_comp (inv_dispatch m rfl rfl)
              (dispatchInv_cast_start (ih _ _ _ _ _ _ _ _ _ (by assumption)) (by rfl) (by rfl))
      | stloc n =>
        simp only [exec] at h
        split at h
        · split at h
          · cases h
          · simp only [Option.some.injEq, Prod.mk.injEq] at h
            obtain ⟨-, -, h3, h4⟩ := h
            subst h3
            subst h4
            exact inv_dispatch m rfl rfl
          · split at h
            · cases h
            · simp only [Option.some.injEq, Prod.mk.injEq] at h
              obtain ⟨-, -, h3, h4⟩ := h
              subst h3
              subst h4
              rw [← List.singleton_append]
              exact inv_comp (inv_dispatch m rfl rfl)
                (dispatchInv_cast_start (ih _ _ _ _ _ _ _ _ _ (by assumption)) (by rfl) (by rfl))
        · cases h
      | ldloc n =>
        simp only [exec] at h
        split at h
        · split at h
          · cases h
          · cases h
          · split at h
            · cases h
            · simp only [Option.some.injEq, Prod.mk.injEq] at h
              obtain ⟨-, -, h3, h4⟩ := h
              subst h3
              subst h4
              exact inv_dispatch m rfl rfl
            · split at h
              · cases h
              · simp only [Option.some.injEq, Prod.mk.injEq] at h
                obtain ⟨-, -, h3, h4⟩ := h
                subst h3
                subst h4
                rw [← List.singleton_append]
                exact inv_comp (inv_dispatch m rfl rfl)
                  (dispatchInv_cast_start (ih _ _ _ _ _ _ _ _ _ (by assumption)) (by rfl) (by rfl))
        · cases h
      | pop =>
        simp only [exec] at h
        split at h
        · cases h
        · simp only [Option.some.injEq, Prod.mk.injEq] at h
          obtain ⟨-, -, h3, h4⟩ := h
          subst h3
          subst h4
          exact inv_dispatch m rfl rfl
        · split at h
          · cases h
          · simp only [Option.some.injEq, Prod.mk.injEq] at h
            obtain ⟨-, -, h3, h4⟩ := h
            subst h3
            subst h4
            rw [← List.singleton_append]
            exact inv_comp (inv_dispatch m rfl rfl)
              (dispatchInv_cast_start (ih _ _ _ _ _ _ _ _ _ (by assumption)) (by rfl) (by rfl))
      | ret =>
        simp only [exec, Option.some.injEq, Prod.mk.injEq] at h
        obtain ⟨-, -, h3, h4⟩ := h
        subst h3
        subst h4
        exact inv_dispatch m rfl rfl
      | call mId =>
        simp only [exec] at h
        split at h
        · cases h
        · simp only [Option.some.injEq, Prod.mk.injEq] at h
          obtain ⟨-, -, h3, h4⟩ := h
          subst h3
          subst h4
          rw [← List.singleton_append]
          exact inv_comp (inv_dispatch m rfl rfl)
            (dispatchInv_cast_start (ih _ _ _ _ _ _ _ _ _ (by assumption)) (by rfl) (by rfl))
        · split at h
          · cases h
          · simp only [Option.some.injEq, Prod.mk.injEq] at h
            obtain ⟨-, -, h3, h4⟩ := h
            subst h3
            subst h4
            rw [← List.singleton_append]
            exact inv_comp (inv_dispatch m rfl rfl)
              (inv_comp (ih _ _ _ _ _ _ _ _ _ (by assumption))
                (dispatchInv_cast_start (ih _ _ _ _ _ _ _ _ _ (by assumption)) (by rfl) (by rfl)))
      | newobj mId =>
        simp only [exec] at h
        split at h
        · simp only [Option.some.injEq, Prod.mk.injEq] at h
          obtain ⟨-, -, h3, h4⟩ := h
          subst h3
          subst h4
          exact inv_dispatch m rfl rfl
        · split at h
          · cases h
          · simp only [Option.some.injEq, Prod.mk.injEq] at h
            obtain ⟨-, -, h3, h4⟩ := h
            subst h3
            subst h4
            exact inv_dispatch m rfl rfl
          · split at h
            · cases h
            · simp only [Option.some.injEq, Prod.mk.injEq] at h
              obtain ⟨-, -, h3, h4⟩ := h
              subst h3
              subst h4
              rw [← List.singleton_append]
              exact inv_comp (inv_dispatch m rfl rfl)
                (dispatchInv_cast_start (ih _ _ _ _ _ _ _ _ _ (by assumption)) (by rfl) (by rfl))
            · split at h
              · cases h
              · simp only [Option.some.injEq, Prod.mk.injEq] at h
                obtain ⟨-, -, h3, h4⟩ := h
                subst h3
                subst h4
                rw [← List.singleton_append]
                exact inv_comp (inv_dispatch m rfl rfl)
                  (inv_comp (dispatchInv_cast_start (ih _ _ _ _ _ _ _ _ _ (by assumption)) (by rfl) (by rfl))
                    (dispatchInv_cast_start (ih _ _ _ _ _ _ _ _ _ (by assumption)) (by rfl) (by rfl)))
      | ldsfld f =>
        simp only [exec] at h
        split at h
        · cases h
        · simp only [Option.some.injEq, Prod.mk.injEq] at h
          obtain ⟨-, -, h3, h4⟩ := h
          subst h3
          subst h4
          rw [← List.singleton_append]
          refine inv_comp (inv_dispatch m rfl rfl) (loadStaticRes_inv (by assumption) ?_)
          intro rB lB gB trX hrun
          exact ih _ _ _ _ _ _ _ _ _ hrun
        · split at h
          · cases h
          · split at h
            · cases h
            · simp only [Option.some.injEq, Prod.mk.injEq] at h
              obtain ⟨-, -, h3, h4⟩ := h
              subst h3
              subst h4
              rw [← List.singleton_append]
              refine inv_comp (inv_dispatch m rfl rfl)
                (dispatchInv_cast_end (loadStaticRes_inv (by assumption) ?_) (by rfl) (by rfl))
              intro rB lB gB trX hrun
              exact ih _ _ _ _ _ _ _ _ _ hrun
            · split at h
              · cases h
              · simp only [Option.some.injEq, Prod.mk.injEq] at h
                obtain ⟨-, -, h3, h4⟩ := h
                subst h3
                subst h4
                rw [← List.singleton_append]
                refine inv_comp (inv_dispatch m rfl rfl)
                  (inv_comp (loadStaticRes_inv (by assumption) ?_)
                    (dispatchInv_cast_start (ih _ _ _ _ _ _ _ _ _ (by assumption)) (by rfl) (by rfl)))
                intro rB lB gB trX hrun
                exact ih _ _ _ _ _ _ _ _ _ hrun
      | stsfld f =>
        simp only [exec] at h
        split at h
        · cases h
        · simp only [Option.some.injEq, Prod.mk.injEq] at h
          obtain ⟨-, -, h3, h4⟩ := h
          subst h3
          subst h4
          rw [← List.singleton_append]
          refine inv_comp (inv_dispatch m rfl rfl) (loadStaticRes_inv (by assumption) ?_)
          intro rB lB gB trX hrun
          exact ih _ _ _ _ _ _ _ _ _ hrun
        · split at h
          · cases h
          · simp only [Option.some.injEq, Prod.mk.injEq] at h
            obtain ⟨-, -, h3, h4⟩ := h
            subst h3
            subst h4
            rw [← List.singleton_append]
            refine inv_comp (inv_dispatch m rfl rfl)
              (dispatchInv_cast_end (loadStaticRes_inv (by assumption) ?_) (by rfl) (by rfl))
            intro rB lB gB trX hrun
            exact ih _ _ _ _ _ _ _ _ _ hrun
          · split at h
            · cases h
            · simp only [Option.some.injEq, Prod.mk.injEq] at h
              obtain ⟨-, -, h3, h4⟩ := h
              subst h3
              subst h4
              rw [← List.singleton_append]
              refine inv_comp (inv_dispatch m rfl rfl)
                (inv_comp (loadStaticRes_inv (by assumption) ?_)
                  (dispatchInv_cast_start (ih _ _ _ _ _ _ _ _ _ (by assumption)) (by rfl) (by rfl)))
              intro rB lB gB trX hrun
              exact ih _ _ _ _ _ _ _ _ _ hrun

/-- Scenario S3 program: `Ldc_i4_s 42; Stloc_0; Ldloc_0; Pop; Ret` as the
entrypoint (method 0). -/
def envS3 : Env :=
  Env.mk (fun m => if m = 0 then [.ldcI4 42, .stloc 0, .ldloc 0, .pop, .ret] else [])
    (fun _ => 0) (fun _ => 0) (fun _ => 0) (fun _ => 0)

/-- Initial globals of a run with a 16-byte stack and entry method 0. -/
def g0S3 : Globals :=
  Globals.mk (Stack.mk (List.replicate 16 0) 0 []) [0] [] [] 0 []

/-- State after `Ldc_i4_s 42; Stloc_0; Ldloc_0`: the moved local back on
the stack, local slot 0 cleared. -/
def gMidS3 : Globals :=
  Globals.mk (Stack.mk (42 :: List.replicate 15 0) 4 [.int32]) [0] [] [] 0 []

/-- Final S3 state: empty stack (bytes remain in the buffer). -/
def gFinS3 : Globals :=
  Globals.mk (Stack.mk (42 :: List.replicate 15 0) 0 []) [0] [] [] 0 []

/-- Cross-call program: entry method 0 is `Call 1; Ret`, method 1 is
`Ret`. -/
def envC8 : Env :=
  Env.mk (fun m => if m = 0 then [.call 1, .ret] else [.ret])
    (fun _ => 0) (fun _ => 0) (fun _ => 0) (fun _ => 0)

/-- Scenario S4 program: entry method 0 is `Ldsfld(F); Pop; Ret`; field
`F` (id 7) belongs to TypeDef 5, whose `.cctor` is method 9 with body
`Ldc_i4 99; Stsfld(F); Ret`. -/
def envS4 : Env :=
  Env.mk (fun m => if m = 0 then [.ldsfld 7, .pop, .ret]
                   else if m = 9 then [.ldcI4 99, .stsfld 7, .ret] else [])
    (fun _ => 5) (fun _ => 9) (fun _ => 0) (fun _ => 0)

/-- Final S4 globals: field 7 stored with tag `Int32`, payload 99; type 5
initialized. -/
def gS4fin : Globals :=
  Globals.mk (Stack.mk (99 :: List.replicate 15 0) 0 []) [0]
    [(7, Var.mk .int32 99)] [5] 0 []

/-- The S4 trace: exactly one `.cctor` invocation although the `.cctor`
itself performs a static-field access (`Stsfld`) on the same type. -/
def trS4 : List Ev :=
  [Ev.dispatch 0 [0], Ev.invokeCctor 5, Ev.dispatch 9 [0], Ev.dispatch 9 [0],
   Ev.dispatch 9 [0], Ev.dispatch 0 [0], Ev.dispatch 0 [0]]

/-- C4: in every run, each TypeDef's `.cctor` is invoked at most once no
matter how many static-field accesses occur (including accesses made
from within the `.cctor` itself), and an invoked type ends up in the
initialized-type set — the set is updated before the recursive `.cctor`
dispatch, which is what `exec_inv`'s invariant tracks. -/
theorem cctor_at_most_once (env : Env) (fuel entry size : Nat) (r : Res)
    (loc : Locals) (g : Globals) (tr : List Ev) (td : Nat)
    (h : runModel env fuel entry size = some (r, loc, g, tr)) :
    tr.count (Ev.invokeCctor td) ≤ 1 ∧
    (1 ≤ tr.count (Ev.invokeCctor td) → td ∈ g.initTypes) := by
  have hinv := exec_inv fuel env entry (env.methods entry) freshLocals
    (Globals.mk (Stack.mk (List.replicate size 0) 0 []) [entry] [] [] 0 []) r loc g tr h
  obtain ⟨-, -, -, hc⟩ := hinv
  obtain ⟨h1, h2⟩ := hc td
  exact ⟨h1, fun hge => (h2 hge).2⟩

set_option maxRecDepth 4000 in
/-- Witness for `cctor_at_most_once`: the S4 run, whose `.cctor` performs
a `Stsfld` on its own type, invokes the `.cctor` exactly once. -/
theorem cctor_at_most_once_witness :
    trS4.count (Ev.invokeCctor 5) ≤ 1 ∧
    (1 ≤ trS4.count (Ev.invokeCctor 5) → 5 ∈ gS4fin.initTypes) :=
  cctor_at_most_once envS4 8 0 16 .ok freshLocals gS4fin trS4 5 (by decide)

/-- The trace of a run, when defined. -/
def runTrace (env : Env) (fuel entry size : Nat) : Option (List Ev) :=
  match runModel env fuel entry size with
  | none => none
  | some (_, _, _, tr) => some tr

/-- Final globals of the cross-call run. -/
def gC8fin : Globals :=
  Globals.mk (Stack.mk (List.replicate 16 0) 0 []) [0] [] [] 0 []

set_option maxRecDepth 4000 in
/-- C8 counterexample: in the two-method run `0: {Call 1; Ret}`,
`1: {Ret}`, an instruction of method 1 is dispatched while the runtime's
frame list is still `[0]` — the `Call` entry gained no frame (the list
still has length 1 and does not contain method 1), so the top of the
stored frame sequence is the entry method, not the currently executing
method. -/
theorem frame_stack_not_tracking_cex :
    runTrace envC8 4 0 16 =
      some [Ev.dispatch 0 [0], Ev.dispatch 1 [0], Ev.dispatch 0 [0]] ∧
    Ev.dispatch 1 [0] ∈
      [Ev.dispatch 0 [0], Ev.dispatch 1 [0], Ev.dispatch 0 [0]] ∧
    (1 : Nat) ∉ [(0 : Nat)] := by
  refine ⟨by decide, by decide, by decide⟩

/-- C8 amended: only `run` appends a frame to the runtime's stored frame
list and nothing ever removes it — `Call`, `Newobj` and `.cctor` dispatch
construct their callee frames as dispatch-local objects (destroyed when
`Ret` ends their dispatch) without touching the list — so throughout any
run the stored list stays exactly `[entry]` and every instruction,
including those of callees, is dispatched with that list in place. -/
theorem frame_list_run_only (env : Env) (fuel entry size : Nat) (r : Res)
    (loc : Locals) (g : Globals) (tr : List Ev)
    (h : runModel env fuel entry size = some (r, loc, g, tr)) :
    g.methodStack = [entry] ∧ ∀ m ms, Ev.dispatch m ms ∈ tr → ms = [entry] := by
  have hinv := exec_inv fuel env entry (env.methods entry) freshLocals
    (Globals.mk (Stack.mk (List.replicate size 0) 0 []) [entry] [] [] 0 []) r loc g tr h
  obtain ⟨h1, h2, -, -⟩ := hinv
  exact ⟨h1, h2⟩

set_option maxRecDepth 4000 in
/-- Witness for `frame_list_run_only` on the cross-call run. -/
theorem frame_list_run_only_witness :
    gC8fin.methodStack = [0] ∧
    ∀ m ms, Ev.dispatch m ms ∈
      [Ev.dispatch 0 [0], Ev.dispatch 1 [0], Ev.dispatch 0 [0]] → ms = [0] :=
  frame_list_run_only envC8 4 0 16 .ok freshLocals gC8fin
    [Ev.dispatch 0 [0], Ev.dispatch 1 [0], Ev.dispatch 0 [0]] (by decide)

theorem push_topType (s : Stack) (t : PayloadType) (v : Nat) (s' : Stack)
    (h : s.push t v = some s') : s'.getTypeOnStack 0 = some (getValueType t) := by
  unfold Stack.push at h
  simp only [] at h
  split at h
  · simp only [Option.some.injEq] at h
    subst h
    unfold Stack.getTypeOnStack
    simp
  · cases h

theorem ldloc_step_eq (env : Env) (fuel m n : Nat) (rest : List Instr) (loc : Locals)
    (g : Globals) (var : Var) (pt : PayloadType) (s' : Stack)
    (hget : loc.get? n = some (some var)) (h255 : n < 255)
    (hpt : payloadOfValueType var.type = some pt)
    (hpush : Stack.push g.stack pt var.value = some s') :
    exec env (fuel + 1) m (.ldloc n :: rest) loc g =
      consEv (Ev.dispatch m g.methodStack)
        (exec env fuel m rest (loc.set n none) { g with stack := s' }) := by
  have hstore : storeVarOnStack var g.stack = some (.ok s') := by
    simp [storeVarOnStack, hpt, hpush]
  simp only [exec, if_pos h255, hget, hstore]
  cases hx : exec env fuel m rest (loc.set n none) { g with stack := s' } with
  | none => simp [consEv]
  | some out =>
    obtain ⟨a, b, c, d⟩ := out
    simp [consEv]

set_option maxRecDepth 4000 in
/-- C6: dispatching `Ldloc n` on a slot that holds a value pushes that
value with its stored tag onto the evaluation stack and then clears the
slot — the continuation runs with `loc.set n none`; and in scenario S3
(`Ldc_i4_s 42; Stloc_0; Ldloc_0; Pop; Ret`) the stack top at the moment
of `Pop` is an `Int32` whose payload reads back as 42, local 0 is
cleared after `Ldloc_0` (the residual locals are all empty), and the
remaining `Pop; Ret` runs to an empty stack. -/
theorem ldloc_moves_and_clears :
    (∀ (env : Env) (fuel m n : Nat) (rest : List Instr) (loc : Locals) (g : Globals)
      (var : Var) (pt : PayloadType) (s' : Stack),
      loc.get? n = some (some var) → n < 255 →
      payloadOfValueType var.type = some pt →
      Stack.push g.stack pt var.value = some s' →
      s'.getTypeOnStack 0 = some var.type ∧
      exec env (fuel + 1) m (.ldloc n :: rest) loc g =
        consEv (Ev.dispatch m g.methodStack)
          (exec env fuel m rest (loc.set n none) { g with stack := s' })) ∧
    exec envS3 20 0 [.ldcI4 42, .stloc 0, .ldloc 0] freshLocals g0S3 =
      some (.ok, freshLocals, gMidS3,
        [Ev.dispatch 0 [0], Ev.dispatch 0 [0], Ev.dispatch 0 [0]]) ∧
    gMidS3.stack.getTypeOnStack 0 = some .int32 ∧
    bytesToNat (readBytes gMidS3.stack.buf 0 4) = 42 ∧
    freshLocals.get? 0 = some none ∧
    exec envS3 20 0 [.pop, .ret] freshLocals gMidS3 =
      some (.ok, freshLocals, gFinS3, [Ev.dispatch 0 [0], Ev.dispatch 0 [0]]) ∧
    gFinS3.stack.types = [] ∧ gFinS3.stack.sp = 0 := by
  refine ⟨?_, by decide, by decide, by decide, by decide, by decide, by decide, by decide⟩
  intro env fuel m n rest loc g var pt s' hget h255 hpt hpush
  refine ⟨?_, ldloc_step_eq env fuel m n rest loc g var pt s' hget h255 hpt hpush⟩
  have := push_topType g.stack pt var.value s' hpush
  rw [getValueType_payloadOfValueType hpt] at this
  exact this

set_option maxRecDepth 4000 in
/-- Witness for `ldloc_moves_and_clears` instantiated at slot 0 holding
an `Int32` 42 over the empty S3 start state. -/
theorem ldloc_moves_and_clears_witness :
    (Stack.mk (42 :: List.replicate 15 0) 4 [ValueType.int32]).getTypeOnStack 0 =
      some (Var.mk .int32 42).type ∧
    exec envS3 (3 + 1) 0 [.ldloc 0] (freshLocals.set 0 (some (Var.mk .int32 42))) g0S3 =
      consEv (Ev.dispatch 0 g0S3.methodStack)
        (exec envS3 3 0 [] ((freshLocals.set 0 (some (Var.mk .int32 42))).set 0 none)
          { g0S3 with stack := Stack.mk (42 :: List.replicate 15 0) 4 [ValueType.int32] }) :=
  ldloc_moves_and_clears.1 envS3 3 0 0 [] (freshLocals.set 0 (some (Var.mk .int32 42))) g0S3
    (Var.mk .int32 42) .i32 (Stack.mk (42 :: List.replicate 15 0) 4 [ValueType.int32])
    (by decide) (by decide) (by decide) (by decide)

/-- C10: reading a never-written typed variable is unguarded.  `Ldloc` of
an empty slot dereferences the empty `unique_ptr` with no error check
(undefined behaviour, `none` — in particular no `StackUnderflow`-style
error value is produced), and `Ldsfld` of a static field never stored by
`Stsfld` (here with the declaring type already initialized, so no
`.cctor` intervenes) dereferences the default-constructed empty map
entry the same way; with the slot holding a value the step is defined
and completes the move described by `ldloc_step_eq`. -/
theorem unwritten_variable_unguarded :
    (∀ (env : Env) (fuel m n : Nat) (rest : List Instr) (loc : Locals) (g : Globals),
      loc.get? n = some none → n < 255 →
      exec env (fuel + 1) m (.ldloc n :: rest) loc g = none) ∧
    (∀ (env : Env) (fuel m f : Nat) (rest : List Instr) (loc : Locals) (g : Globals),
      env.fieldTypeDef f ∈ g.initTypes →
      lookupStatic g.staticVars f = none →
      exec env (fuel + 1) m (.ldsfld f :: rest) loc g = none) ∧
    (∀ (env : Env) (fuel m n : Nat) (loc : Locals) (g : Globals)
      (var : Var) (pt : PayloadType) (s' : Stack),
      loc.get? n = some (some var) → n < 255 →
      payloadOfValueType var.type = some pt →
      Stack.push g.stack pt var.value = some s' →
      exec env (fuel + 2) m [.ldloc n] loc g =
        some (.ok, loc.set n none, { g with stack := s' },
          [Ev.dispatch m g.methodStack])) := by
  refine ⟨?_, ?_, ?_⟩
  · intro env fuel m n rest loc g hget h255
    simp only [exec, if_pos h255, hget]
  · intro env fuel m f rest loc g hin hlook
    have hload : ∀ run, loadStaticRes (env.fieldTypeDef f) g run = some (.ok, g, []) := by
      intro run
      unfold loadStaticRes
      rw [if_pos hin]
    simp only [exec, hload, hlook]
  · intro env fuel m n loc g var pt s' hget h255 hpt hpush
    rw [ldloc_step_eq env (fuel + 1) m n [] loc g var pt s' hget h255 hpt hpush]
    simp only [exec, consEv]

set_option maxRecDepth 4000 in
/-- Witness for `unwritten_variable_unguarded`: `Ldloc_0` on a frame
whose slot 0 was never stored is undefined; `Ldsfld` of an unwritten
field of an initialized type is undefined; `Ldloc_0` of a slot holding
`Int32` 42 is defined and clears the slot. -/
theorem unwritten_variable_unguarded_witness :
    exec envS3 (5 + 1) 0 [Instr.ldloc 0] freshLocals g0S3 = none ∧
    exec envS4 (5 + 1) 0 [Instr.ldsfld 7]
      freshLocals (Globals.mk (Stack.mk (List.replicate 16 0) 0 []) [0] [] [5] 0 []) = none ∧
    exec envS3 (5 + 2) 0 [Instr.ldloc 0] (freshLocals.set 0 (some (Var.mk .int32 42))) g0S3 =
      some (.ok, (freshLocals.set 0 (some (Var.mk .int32 42))).set 0 none,
        { g0S3 with stack := Stack.mk (42 :: List.replicate 15 0) 4 [ValueType.int32] },
        [Ev.dispatch 0 g0S3.methodStack]) :=
  ⟨unwritten_variable_unguarded.1 envS3 5 0 0 [] freshLocals g0S3 (by decide) (by decide),
   unwritten_variable_unguarded.2.1 envS4 5 0 7 [] freshLocals
     (Globals.mk (Stack.mk (List.replicate 16 0) 0 []) [0] [] [5] 0 [])
     (by decide) (by decide),
   unwritten_variable_unguarded.2.2 envS3 5 0 0 (freshLocals.set 0 (some (Var.mk .int32 42)))
     g0S3 (Var.mk .int32 42) .i32 (Stack.mk (42 :: List.replicate 15 0) 4 [ValueType.int32])
     (by decide) (by decide) (by decide) (by decide)⟩
